import Mathlib

/-!
Verification development for the rodario actor framework.

The definitions below are shallow embeddings of the two source modules:

* `rodario/decorators.py` — the `DecoratedMethod` hook pipeline and the
  `blocking` / `singular` decorators (the latter implementing a TTL-guarded
  distributed lock over redis key primitives);
* `rodario/actors/proxy.py` — the `ActorProxy` constructor argument check,
  the reply-correlation message handler `_handler`, and the call-dispatch
  operation `_proxy`.

Python hooks are effectful, so hooks are modelled as explicit state
transformers over an abstract world type; the pipeline additionally emits a
trace of invocation events so that ordering and invoke-once facts can be
stated.  Machine reals (Python floats from `time.time()`) are modelled as
rationals; redis keys/values as total functions from `String`.
-/

/-! ## Hook pipeline (`rodario.decorators.DecoratedMethod`) -/

/-- Events recording each invocation the pipeline performs, in order.
`beforeEv i s a` records before-hook number `i` being called with receiver
`s` and arguments `a`; `baseEv s a` the wrapped function; `afterEv i s r a`
after-hook number `i` being called with receiver `s`, base result `r` and
arguments `a`. -/
inductive CallEvent (S A V : Type) where
  | beforeEv (idx : Nat) (recv : S) (args : A)
  | baseEv (recv : S) (args : A)
  | afterEv (idx : Nat) (recv : S) (res : V) (args : A)
  deriving DecidableEq

/-- True exactly on `baseEv` events. -/
def CallEvent.isBase {S A V : Type} : CallEvent S A V → Bool
  | .baseEv _ _ => true
  | _ => false

/-- True exactly on `beforeEv` events. -/
def CallEvent.isBefore {S A V : Type} : CallEvent S A V → Bool
  | .beforeEv _ _ _ => true
  | _ => false

/-- True exactly on `afterEv` events. -/
def CallEvent.isAfter {S A V : Type} : CallEvent S A V → Bool
  | .afterEv _ _ _ _ => true
  | _ => false

/-- Embeds `rodario.decorators.DecoratedMethod`: the wrapped function
(`self._func`), the decoration tag set (`self.decorations`) and the ordered
before/after hook lists.  `S` is the receiver type (`self._instance`, stored
by `__get__`), `σ` the mutable world the hooks act on (for the lock hooks:
the redis store plus the wall clock), `A` the call arguments (`*args` and
`**kwargs` together) and `V` the Python return values that are not `None`
(a hook returning Python `None` is modelled as returning `none`). -/
structure DecoratedMethod (S σ A V : Type) where
  func : S → A → σ → V × σ
  decorations : Finset String
  before : List (S → A → σ → Option V × σ)
  after : List (S → V → A → σ → Option V × σ)

/-- The first loop of `DecoratedMethod.__call__`: run the before hooks in
order from state `w`; stop at the first hook returning non-`None`.  `i` is
the index of the first hook in the list (the pipeline starts it at 0); the
trace records each hook actually invoked, in order. -/
def runBeforeHooks {S σ A V : Type} :
    List (S → A → σ → Option V × σ) → Nat → S → A → σ →
      Option V × σ × List (CallEvent S A V)
  | [], _, _, _, w => (none, w, [])
  | h :: hs, i, s, a, w =>
    match h s a w with
    | (some v, w1) => (some v, w1, [CallEvent.beforeEv i s a])
    | (none, w1) =>
      match runBeforeHooks hs (i + 1) s a w1 with
      | (res, w2, evs) => (res, w2, CallEvent.beforeEv i s a :: evs)

/-- The second loop of `DecoratedMethod.__call__`: run the after hooks in
order, each receiving the base result `r`; stop at the first hook returning
non-`None`. -/
def runAfterHooks {S σ A V : Type} :
    List (S → V → A → σ → Option V × σ) → Nat → S → V → A → σ →
      Option V × σ × List (CallEvent S A V)
  | [], _, _, _, _, w => (none, w, [])
  | g :: gs, i, s, r, a, w =>
    match g s r a w with
    | (some v, w1) => (some v, w1, [CallEvent.afterEv i s r a])
    | (none, w1) =>
      match runAfterHooks gs (i + 1) s r a w1 with
      | (res, w2, evs) => (res, w2, CallEvent.afterEv i s r a :: evs)

/-- Embeds `DecoratedMethod.__call__`: before hooks first (any non-`None`
result is returned at once, skipping everything else), then the wrapped
function, then the after hooks (any non-`None` result replaces the base
result at once); otherwise the base result is returned.  The returned trace
records every invocation made, in order. -/
def DecoratedMethod.call {S σ A V : Type} (m : DecoratedMethod S σ A V)
    (s : S) (a : A) (w : σ) : V × σ × List (CallEvent S A V) :=
  match runBeforeHooks m.before 0 s a w with
  | (some v, w1, evs) => (v, w1, evs)
  | (none, w1, evs) =>
    match m.func s a w1 with
    | (r, w2) =>
      match runAfterHooks m.after 0 s r a w2 with
      | (some v, w3, evs2) => (v, w3, evs ++ CallEvent.baseEv s a :: evs2)
      | (none, w3, evs2) => (r, w3, evs ++ CallEvent.baseEv s a :: evs2)

/-- Argument to a decorator: either a plain (not yet decorated) function or
an existing `DecoratedMethod` (the `isinstance(func, DecoratedMethod)`
branch in the source). -/
inductive Decoratable (S σ A V : Type) where
  | plain (f : S → A → σ → V × σ)
  | deco (m : DecoratedMethod S σ A V)

/-- The `blocking` decoration tag string. -/
def blockingTag : String := "blocking"

/-- The `singular` decoration tag string. -/
def singularTag : String := "singular"

/-- Embeds `rodario.decorators.blocking`: on an already decorated method it
adds the tag to the existing set and returns the same method; otherwise it
wraps the function with the tag and no hooks. -/
def blocking {S σ A V : Type} : Decoratable S σ A V → DecoratedMethod S σ A V
  | .deco m => { m with decorations := insert blockingTag m.decorations }
  | .plain f => { func := f, decorations := {blockingTag}, before := [], after := [] }

/-! ## Distributed lock (`rodario.decorators.singular`) -/

/-- Redis key state as used by the lock: each key optionally holds a numeric
value (the stored expiry timestamp) and optionally carries a TTL. -/
structure RedisState where
  store : String → Option ℚ
  ttl : String → Option ℚ

/-- The world the singular hooks act on: the wall clock (`time.time()`,
read once per hook invocation) and the redis state reached through
`self._redis`. -/
structure World where
  now : ℚ
  redis : RedisState

/-- `SETNX key value`: set only if absent, report whether the set happened. -/
def redisSetnx (st : RedisState) (k : String) (v : ℚ) : Bool × RedisState :=
  match st.store k with
  | some _ => (false, st)
  | none =>
    (true,
      { store := fun k2 => if k2 = k then some v else st.store k2,
        ttl := fun k2 => if k2 = k then none else st.ttl k2 })

/-- `GET key`. -/
def redisGet (st : RedisState) (k : String) : Option ℚ := st.store k

/-- `GETSET key value`: atomically write the new value and return the
previous one; like `SET`, it clears any TTL on the key. -/
def redisGetset (st : RedisState) (k : String) (v : ℚ) :
    Option ℚ × RedisState :=
  (st.store k,
    { store := fun k2 => if k2 = k then some v else st.store k2,
      ttl := fun k2 => if k2 = k then none else st.ttl k2 })

/-- `EXPIRE key seconds`: attach a TTL to an existing key (no-op when the
key is absent). -/
def redisExpire (st : RedisState) (k : String) (t : ℚ) : RedisState :=
  match st.store k with
  | none => st
  | some _ => { st with ttl := fun k2 => if k2 = k then some t else st.ttl k2 }

/-- `DEL key`. -/
def redisDelete (st : RedisState) (k : String) : RedisState :=
  { store := fun k2 => if k2 = k then none else st.store k2,
    ttl := fun k2 => if k2 = k then none else st.ttl k2 }

/-- `expiry = 2` in `singular`: the lock TTL in seconds. -/
def expiry : ℚ := 2

/-- `context = None` in `singular` (the source never sets it; the docstring
flags accepting it as a parameter as future work). -/
def lockContext : Option String := none

/-- `lock_context = 'global.lock' if not context else context`: a falsy
context (absent or empty) falls back to the global namespace. -/
def lockContextName : String :=
  match lockContext with
  | none => "global.lock"
  | some c => if c = "" then "global.lock" else c

/-- `lock_name = '%s:%s' % (lock_context, func.__name__)`; the wrapped
method's name is passed explicitly here, standing for `func.__name__`. -/
def lockName (methodName : String) : String :=
  lockContextName ++ ":" ++ methodName

/-- Embeds `before_singular`, the lock-acquisition before-hook of
`singular`.  `pyFalse` is the Python value `False` that the hook returns to
veto the call (it is not `None`, so the pipeline short-circuits on it).
The two `none` fallbacks marked unreachable cover states the hook cannot
reach sequentially (SETNX just failed, so the key exists); in the source
those paths would raise a `TypeError` from `float(None)`. -/
def before_singular {S A V : Type} (pyFalse : V) (methodName : String)
    (s : S) (a : A) (w : World) : Option V × World :=
  let current := w.now
  let lock_expires := current + expiry + 1
  let lock_name := lockName methodName
  match redisSetnx w.redis lock_name lock_expires with
  | (true, st) =>
    (none, { w with redis := redisExpire st lock_name expiry })
  | (false, st) =>
    match redisGet st lock_name with
    | some cur =>
      if current < cur then
        (some pyFalse, { w with redis := st })
      else
        match redisGetset st lock_name lock_expires with
        | (some prev, st2) =>
          if current < prev then
            (some pyFalse, { w with redis := st2 })
          else
            (none, { w with redis := redisExpire st2 lock_name expiry })
        | (none, st2) =>
          (some pyFalse, { w with redis := st2 })
    | none =>
      (some pyFalse, { w with redis := st })

/-- Embeds `after_singular`, the lock-release after-hook of `singular`: it
deletes the lock key and returns Python `None` (its body has no return
statement). -/
def after_singular {S A V : Type} (methodName : String)
    (s : S) (r : V) (a : A) (w : World) : Option V × World :=
  let lock_name := lockName methodName
  (none, { w with redis := redisDelete w.redis lock_name })

/-- Embeds `rodario.decorators.singular`: on an already decorated method it
adds the tag and appends the acquire/release hooks to the ends of the
existing lists, returning the same method; otherwise it wraps the function
with exactly those hooks.  `methodName` stands for `func.__name__`. -/
def singular {S A V : Type} (pyFalse : V) (methodName : String) :
    Decoratable S World A V → DecoratedMethod S World A V
  | .deco m =>
    { m with
        decorations := insert singularTag m.decorations,
        before := m.before ++ [before_singular pyFalse methodName],
        after := m.after ++ [after_singular methodName] }
  | .plain f =>
    { func := f, decorations := {singularTag},
      before := [before_singular pyFalse methodName],
      after := [after_singular methodName] }

/-! ## Actor proxy (`rodario.actors.proxy.ActorProxy`) -/

/-- The two construction modes of `ActorProxy.__init__`: clone a local
actor instance, or attach remotely by identifier. -/
inductive InitMode (Actor : Type) where
  | cloneLocal (actor : Actor)
  | attachRemote (uuid : String)
  deriving DecidableEq

/-- Embeds the argument dispatch of `ActorProxy.__init__`:
`if isinstance(actor, Actor)` clones the local actor (this branch is tested
first, so it wins when both arguments are given); `elif isinstance(uuid, str)`
attaches by identifier; otherwise the constructor raises. -/
def proxyInit (Actor : Type) (actor : Option Actor) (uuid : Option String) :
    Except String (InitMode Actor) :=
  match actor with
  | some act => Except.ok (InitMode.cloneLocal act)
  | none =>
    match uuid with
    | some u => Except.ok (InitMode.attachRemote u)
    | none => Except.error ("No actor or UUID provided")

/-- A raised Python exception relevant to the handler. -/
inductive PyErr where
  | keyError (key : String)
  deriving DecidableEq

/-- Embeds `ActorProxy._handler`.  The incoming message has already been
unpickled into the response envelope `(slot, res)`.  The registry
`responseQueues` is `self._response_queues`, each pending entry holding the
current contents of its `multiprocessing.Queue`.  The source first evaluates
`self._response_queues[queue]` — which raises `KeyError` when the slot is
unknown — then `put`s the result value on that queue and pops the entry
(the pop itself uses a `None` default and cannot raise).  On success the
returned pair is the fulfilled queue contents (what the awaiting caller's
queue reference now holds) and the registry after the pop. -/
def handler {R : Type} (responseQueues : String → Option (List R))
    (slot : String) (res : R) :
    Except PyErr (List R × (String → Option (List R))) :=
  match responseQueues slot with
  | some q =>
    Except.ok (q ++ [res], fun k => if k = slot then none else responseQueues k)
  | none => Except.error (PyErr.keyError slot)

/-- The request envelope `(self.proxyid, queue, method_name, args, kwargs)`
pickled and published by `ActorProxy._proxy`. -/
structure RequestEnvelope (A K : Type) where
  senderProxyId : String
  replySlotId : String
  methodName : String
  args : A
  kwargs : K
  deriving DecidableEq

/-- Externally visible effects of `_proxy`, in the order performed. -/
inductive ProxyEvent (A K : Type) where
  | publishEv (channel : String) (env : RequestEnvelope A K)
  | registerEv (slot : String)
  deriving DecidableEq

/-- The proxy-side world `_proxy` acts on: the pending-reply registry
`self._response_queues` and, as environment, the number of live subscribers
per channel (what `publish` reports back). -/
structure ProxyWorld (R : Type) where
  responseQueues : String → Option (List R)
  subscribers : String → Nat

/-- Embeds `ActorProxy._proxy`.  `newSlot` stands for the fresh
`str(uuid4())` reply-slot identifier.  The envelope is published on the
actor's shared channel first; `publish` reports the subscriber count; a
zero count raises `No such actor` with nothing registered; otherwise a new
empty queue is registered under `newSlot` and returned to the caller. -/
def proxyCall {R A K : Type} (selfUuid proxyid newSlot methodName : String)
    (args : A) (kwargs : K) (w : ProxyWorld R) :
    Except String (List R) × ProxyWorld R × List (ProxyEvent A K) :=
  let chan := "actor:" ++ selfUuid
  let env : RequestEnvelope A K :=
    { senderProxyId := proxyid, replySlotId := newSlot,
      methodName := methodName, args := args, kwargs := kwargs }
  let count := w.subscribers chan
  if count = 0 then
    (Except.error ("No such actor"), w, [ProxyEvent.publishEv chan env])
  else
    ( Except.ok [],
      { w with
          responseQueues := fun k =>
            if k = newSlot then some [] else w.responseQueues k },
      [ProxyEvent.publishEv chan env, ProxyEvent.registerEv newSlot])

/-! ## Chained-hook predicate used to state the pipeline claims -/

/-- `noneChain fs w wfin`: applying the state transformers `fs` in order
from `w`, every one of them returns Python `None`, finishing in `wfin`. -/
def noneChain {σ V : Type} : List (σ → Option V × σ) → σ → σ → Prop
  | [], w, wfin => wfin = w
  | f :: fs, w, wfin => ∃ wmid, f w = (none, wmid) ∧ noneChain fs wmid wfin

/-! ## Concrete fixtures used to instantiate the theorems -/

/-- A before hook returning `None` and bumping a counter world. -/
def hookNone1 : Unit → Nat → Nat → Option Nat × Nat := fun _ _ w => (none, w + 1)

/-- A before hook vetoing with value 7. -/
def hookVeto7 : Unit → Nat → Nat → Option Nat × Nat := fun _ _ w => (some 7, w + 10)

/-- An after hook returning `None`. -/
def aftNone : Unit → Nat → Nat → Nat → Option Nat × Nat := fun _ _ _ w => (none, w + 2)

/-- An after hook overriding the result with 9. -/
def aftOver9 : Unit → Nat → Nat → Nat → Option Nat × Nat := fun _ _ _ w => (some 9, w + 20)

/-- A decorated method whose second before hook vetoes. -/
def mVeto : DecoratedMethod Unit Nat Nat Nat :=
  { func := fun _ a w => (a + w, w), decorations := ∅,
    before := [hookNone1, hookVeto7, hookNone1], after := [] }

/-- A decorated method whose single before hook and single after hook both
return `None`. -/
def mPass : DecoratedMethod Unit Nat Nat Nat :=
  { func := fun _ a w => (a * 2, w + 5), decorations := ∅,
    before := [hookNone1], after := [aftNone] }

/-- A decorated method whose second after hook overrides the result. -/
def mAfter : DecoratedMethod Unit Nat Nat Nat :=
  { func := fun _ a w => (a * 2, w + 5), decorations := ∅,
    before := [hookNone1], after := [aftNone, aftOver9, aftNone] }

/-- A trivial decorated method over the lock world, used to instantiate the
decorator-composition theorem. -/
def mOnWorld : DecoratedMethod Unit World Nat Nat :=
  { func := fun _ a w => (a, w), decorations := ∅, before := [], after := [] }

/-- A sample wrapped-method name. -/
def nIncr : String := "incr"

/-- A lock world whose store is empty, at time 10. -/
def wFresh : World :=
  { now := 10, redis := { store := fun _ => none, ttl := fun _ => none } }

/-- A lock world where the lock key holds expiry 20 (unexpired at time 10). -/
def wHeld : World :=
  { now := 10,
    redis :=
      { store := fun k => if k = lockName nIncr then some 20 else none,
        ttl := fun _ => none } }

/-- A lock world where the lock key holds expiry 4 (expired at time 10). -/
def wStale : World :=
  { now := 10,
    redis :=
      { store := fun k => if k = lockName nIncr then some 4 else none,
        ttl := fun _ => none } }

/-- A base function returning 42 and leaving the world unchanged. -/
def fBase : Unit → Unit → World → Nat × World := fun _ _ w => (42, w)

/-- Sample identifiers for the proxy theorems. -/
def uuidA : String := "a1"

/-- Sample proxy identifier. -/
def pidP : String := "p1"

/-- Sample fresh reply-slot identifier. -/
def slotS : String := "s1"

/-- Sample proxied method name. -/
def mPing : String := "ping"

/-- A second slot identifier, absent from every fixture registry. -/
def slotT : String := "t9"

/-- A proxy world with no subscribers on any channel. -/
def wSub0 : ProxyWorld Nat :=
  { responseQueues := fun _ => none, subscribers := fun _ => 0 }

/-- A proxy world with one subscriber on every channel. -/
def wSub1 : ProxyWorld Nat :=
  { responseQueues := fun _ => none, subscribers := fun _ => 1 }

/-- A registry with one pending (empty) reply queue under `slotS`. -/
def regPending : String → Option (List Nat) :=
  fun k => if k = slotS then some [] else none

/-! ## Helper lemmas about the traced hook runners -/

/-- Shifting the start index of an indexed range map peels off the head. -/
theorem map_range_shift {β : Type} (f : Nat → β) (i n : Nat) :
    (List.range (n + 1)).map (fun j => f (i + j))
      = f i :: (List.range n).map (fun j => f (i + 1 + j)) := by
  induction n generalizing i with
  | zero => simp [show List.range 1 = [0] from rfl]
  | succ n ih =>
    rw [List.range_succ, List.map_append, ih, List.range_succ, List.map_append]
    have hn : i + (n + 1) = i + 1 + n := by omega
    simp [hn]

/-- Starting the index at zero gives the plain range map. -/
theorem map_range_zero_add {β : Type} (f : Nat → β) (n : Nat) :
    (List.range n).map (fun j => f (0 + j)) = (List.range n).map f := by
  induction n with
  | zero => rfl
  | succ n ih =>
    rw [List.range_succ, List.map_append, List.map_append, ih]
    simp

/-- If every before hook in the list returns `None` along the run, the
runner returns `None`, finishes in the chain's final state, and its trace
is exactly one `beforeEv` per hook, in order. -/
theorem runBeforeHooks_none {S σ A V : Type}
    (hooks : List (S → A → σ → Option V × σ)) (i : Nat) (s : S) (a : A)
    (w wfin : σ)
    (h : noneChain (hooks.map (fun hk => hk s a)) w wfin) :
    runBeforeHooks hooks i s a w =
      (none, wfin,
        (List.range hooks.length).map (fun j => CallEvent.beforeEv (i + j) s a)) := by
  induction hooks generalizing i w with
  | nil =>
    have hw : wfin = w := h
    subst hw
    rfl
  | cons hk rest ih =>
    obtain ⟨wmid, h1, h2⟩ := h
    have h1b : hk s a w = (none, wmid) := h1
    have hr := ih (i + 1) wmid h2
    rw [List.length_cons,
      map_range_shift (fun j => CallEvent.beforeEv j s a) i rest.length]
    show (match hk s a w with
      | (some v, w1) => (some v, w1, [CallEvent.beforeEv i s a])
      | (none, w1) =>
        match runBeforeHooks rest (i + 1) s a w1 with
        | (res, w2, evs) => (res, w2, CallEvent.beforeEv i s a :: evs)) = _
    rw [h1b]
    show (match runBeforeHooks rest (i + 1) s a wmid with
      | (res, w2, evs) => (res, w2, CallEvent.beforeEv i s a :: evs)) = _
    rw [hr]

/-- If the first `k` before hooks return `None` along the run and hook `k`
returns a value, the runner short-circuits with that value and state, and
its trace is exactly the `k + 1` invoked hooks, in order. -/
theorem runBeforeHooks_veto {S σ A V : Type}
    (hooks : List (S → A → σ → Option V × σ)) (i : Nat) (s : S) (a : A)
    (k : Nat) (hk : k < hooks.length) (v : V) (w wm w2 : σ)
    (hchain : noneChain ((hooks.take k).map (fun hh => hh s a)) w wm)
    (hhit : hooks.get ⟨k, hk⟩ s a wm = (some v, w2)) :
    runBeforeHooks hooks i s a w =
      (some v, w2,
        (List.range (k + 1)).map (fun j => CallEvent.beforeEv (i + j) s a)) := by
  induction hooks generalizing i k w with
  | nil => exact absurd hk (Nat.not_lt_zero k)
  | cons hh rest ih =>
    cases k with
    | zero =>
      have hwm : wm = w := hchain
      subst hwm
      have hhit2 : hh s a wm = (some v, w2) := hhit
      show (match hh s a wm with
        | (some v, w1) => (some v, w1, [CallEvent.beforeEv i s a])
        | (none, w1) =>
          match runBeforeHooks rest (i + 1) s a w1 with
          | (res, w2, evs) => (res, w2, CallEvent.beforeEv i s a :: evs)) = _
      rw [hhit2]
      simp [show List.range 1 = [0] from rfl]
    | succ k =>
      rw [List.take_succ_cons, List.map_cons] at hchain
      obtain ⟨wmid, h1, h2⟩ := hchain
      have h1b : hh s a w = (none, wmid) := h1
      have hk2 : k < rest.length := Nat.lt_of_succ_lt_succ hk
      have hhit2 : rest.get ⟨k, hk2⟩ s a wm = (some v, w2) := hhit
      have hr := ih (i + 1) k hk2 wmid h2 hhit2
      rw [map_range_shift (fun j => CallEvent.beforeEv j s a) i (k + 1)]
      show (match hh s a w with
        | (some v, w1) => (some v, w1, [CallEvent.beforeEv i s a])
        | (none, w1) =>
          match runBeforeHooks rest (i + 1) s a w1 with
          | (res, w2, evs) => (res, w2, CallEvent.beforeEv i s a :: evs)) = _
      rw [h1b]
      show (match runBeforeHooks rest (i + 1) s a wmid with
        | (res, w2, evs) => (res, w2, CallEvent.beforeEv i s a :: evs)) = _
      rw [hr]

/-- If every after hook in the list returns `None` along the run, the
runner returns `None`, finishes in the chain's final state, and its trace
is exactly one `afterEv` per hook, in order. -/
theorem runAfterHooks_none {S σ A V : Type}
    (hooks : List (S → V → A → σ → Option V × σ)) (i : Nat) (s : S) (r : V)
    (a : A) (w wfin : σ)
    (h : noneChain (hooks.map (fun g => g s r a)) w wfin) :
    runAfterHooks hooks i s r a w =
      (none, wfin,
        (List.range hooks.length).map (fun j => CallEvent.afterEv (i + j) s r a)) := by
  induction hooks generalizing i w with
  | nil =>
    have hw : wfin = w := h
    subst hw
    rfl
  | cons g rest ih =>
    obtain ⟨wmid, h1, h2⟩ := h
    have h1b : g s r a w = (none, wmid) := h1
    have hr := ih (i + 1) wmid h2
    rw [List.length_cons,
      map_range_shift (fun j => CallEvent.afterEv j s r a) i rest.length]
    show (match g s r a w with
      | (some v, w1) => (some v, w1, [CallEvent.afterEv i s r a])
      | (none, w1) =>
        match runAfterHooks rest (i + 1) s r a w1 with
        | (res, w2, evs) => (res, w2, CallEvent.afterEv i s r a :: evs)) = _
    rw [h1b]
    show (match runAfterHooks rest (i + 1) s r a wmid with
      | (res, w2, evs) => (res, w2, CallEvent.afterEv i s r a :: evs)) = _
    rw [hr]

/-- If the first `k` after hooks return `None` along the run and hook `k`
returns a value, the runner short-circuits with that value and state, and
its trace is exactly the `k + 1` invoked hooks, in order. -/
theorem runAfterHooks_veto {S σ A V : Type}
    (hooks : List (S → V → A → σ → Option V × σ)) (i : Nat) (s : S) (r : V)
    (a : A) (k : Nat) (hk : k < hooks.length) (v : V) (w wm w2 : σ)
    (hchain : noneChain ((hooks.take k).map (fun g => g s r a)) w wm)
    (hhit : hooks.get ⟨k, hk⟩ s r a wm = (some v, w2)) :
    runAfterHooks hooks i s r a w =
      (some v, w2,
        (List.range (k + 1)).map (fun j => CallEvent.afterEv (i + j) s r a)) := by
  induction hooks generalizing i k w with
  | nil => exact absurd hk (Nat.not_lt_zero k)
  | cons g rest ih =>
    cases k with
    | zero =>
      have hwm : wm = w := hchain
      subst hwm
      have hhit2 : g s r a wm = (some v, w2) := hhit
      show (match g s r a wm with
        | (some v, w1) => (some v, w1, [CallEvent.afterEv i s r a])
        | (none, w1) =>
          match runAfterHooks rest (i + 1) s r a w1 with
          | (res, w2, evs) => (res, w2, CallEvent.afterEv i s r a :: evs)) = _
      rw [hhit2]
      simp [show List.range 1 = [0] from rfl]
    | succ k =>
      rw [List.take_succ_cons, List.map_cons] at hchain
      obtain ⟨wmid, h1, h2⟩ := hchain
      have h1b : g s r a w = (none, wmid) := h1
      have hk2 : k < rest.length := Nat.lt_of_succ_lt_succ hk
      have hhit2 : rest.get ⟨k, hk2⟩ s r a wm = (some v, w2) := hhit
      have hr := ih (i + 1) k hk2 wmid h2 hhit2
      rw [map_range_shift (fun j => CallEvent.afterEv j s r a) i (k + 1)]
      show (match g s r a w with
        | (some v, w1) => (some v, w1, [CallEvent.afterEv i s r a])
        | (none, w1) =>
          match runAfterHooks rest (i + 1) s r a w1 with
          | (res, w2, evs) => (res, w2, CallEvent.afterEv i s r a :: evs)) = _
      rw [h1b]
      show (match runAfterHooks rest (i + 1) s r a wmid with
        | (res, w2, evs) => (res, w2, CallEvent.afterEv i s r a :: evs)) = _
      rw [hr]

/-- Every event the after-hook runner emits is an `afterEv`. -/
theorem runAfterHooks_events_shape {S σ A V : Type}
    (hooks : List (S → V → A → σ → Option V × σ)) (i : Nat) (s : S) (r : V)
    (a : A) (w : σ) :
    ∀ e ∈ (runAfterHooks hooks i s r a w).2.2,
      CallEvent.isBase e = false ∧ CallEvent.isBefore e = false := by
  induction hooks generalizing i w with
  | nil => intro e he; simp [runAfterHooks] at he
  | cons g rest ih =>
    intro e he
    rcases hg : g s r a w with ⟨mres, w1⟩
    rcases mres with _ | v
    · rcases hrest : runAfterHooks rest (i + 1) s r a w1 with ⟨res2, w2, evs⟩
      have hred : (runAfterHooks (g :: rest) i s r a w).2.2
          = CallEvent.afterEv i s r a :: evs := by
        show (match g s r a w with
          | (some v, w1) => (some v, w1, [CallEvent.afterEv i s r a])
          | (none, w1) =>
            match runAfterHooks rest (i + 1) s r a w1 with
            | (res, w2, evs) => (res, w2, CallEvent.afterEv i s r a :: evs)).2.2 = _
        rw [hg]
        show (match runAfterHooks rest (i + 1) s r a w1 with
          | (res, w2, evs) => (res, w2, CallEvent.afterEv i s r a :: evs)).2.2 = _
        rw [hrest]
      rw [hred] at he
      rcases List.mem_cons.mp he with heq | hmem
      · subst heq; exact ⟨rfl, rfl⟩
      · exact ih (i + 1) w1 e (by rw [hrest]; exact hmem)
    · have hred : (runAfterHooks (g :: rest) i s r a w).2.2
          = [CallEvent.afterEv i s r a] := by
        show (match g s r a w with
          | (some v, w1) => (some v, w1, [CallEvent.afterEv i s r a])
          | (none, w1) =>
            match runAfterHooks rest (i + 1) s r a w1 with
            | (res, w2, evs) => (res, w2, CallEvent.afterEv i s r a :: evs)).2.2 = _
        rw [hg]
      rw [hred] at he
      rcases List.mem_singleton.mp he with heq
      subst heq; exact ⟨rfl, rfl⟩

/-! ## Claim theorems -/

/-- C6: applying `blocking` or `singular` to an already decorated method
extends that method rather than wrapping it: the wrapped function and the
existing hook lists are kept (no re-wrap), the decorator's tag is added to
the existing decoration set, and `singular` appends its acquire hook to the
end of the before list and its release hook to the end of the after list,
so application order determines hook order within one pipeline. -/
theorem decorators_compose_additively {S A V : Type}
    (m : DecoratedMethod S World A V) (pyFalse : V) (n : String) :
    (blocking (Decoratable.deco m)).func = m.func
  ∧ (blocking (Decoratable.deco m)).before = m.before
  ∧ (blocking (Decoratable.deco m)).after = m.after
  ∧ (blocking (Decoratable.deco m)).decorations = insert blockingTag m.decorations
  ∧ (singular pyFalse n (Decoratable.deco m)).func = m.func
  ∧ (singular pyFalse n (Decoratable.deco m)).before
      = m.before ++ [before_singular pyFalse n]
  ∧ (singular pyFalse n (Decoratable.deco m)).after
      = m.after ++ [after_singular n]
  ∧ (singular pyFalse n (Decoratable.deco m)).decorations
      = insert singularTag m.decorations :=
  ⟨rfl, rfl, rfl, rfl, rfl, rfl, rfl, rfl⟩

/-- C6 instance: the composition facts evaluated on a concrete method. -/
theorem decorators_compose_additively_instance :
    (singular (0 : Nat) nIncr (Decoratable.deco mOnWorld)).before
        = mOnWorld.before ++ [before_singular 0 nIncr]
    ∧ (blocking (Decoratable.deco mOnWorld)).decorations
        = insert blockingTag mOnWorld.decorations := by
  have h := decorators_compose_additively mOnWorld (0 : Nat) nIncr
  exact ⟨h.2.2.2.2.2.1, h.2.2.2.1⟩

/-- C7: the singular release after-hook deletes the lock key
unconditionally — in every world, whatever value the key currently holds
and whoever wrote it, the key (value and TTL) is gone afterwards and no
other key is touched; no comparison against the caller's own expiry guards
the delete. -/
theorem after_singular_unconditional_delete {S A V : Type} (n : String)
    (s : S) (r : V) (a : A) (w : World) :
    (after_singular n s r a w).2.redis.store (lockName n) = none
  ∧ (after_singular n s r a w).2.redis.ttl (lockName n) = none
  ∧ (∀ k, k ≠ lockName n →
        (after_singular n s r a w).2.redis.store k = w.redis.store k
      ∧ (after_singular n s r a w).2.redis.ttl k = w.redis.ttl k)
  ∧ (after_singular n s r a w).2.now = w.now := by
  refine ⟨by simp [after_singular, redisDelete], by simp [after_singular, redisDelete],
    ?_, rfl⟩
  intro k hk
  exact ⟨by simp [after_singular, redisDelete, hk], by simp [after_singular, redisDelete, hk]⟩

/-- C7 instance: deletion evaluated in a world where the key is held by a
different writer (stored expiry 20). -/
theorem after_singular_unconditional_delete_instance :
    (after_singular (S := Unit) (A := Unit) nIncr () (5 : Nat) () wHeld).2.redis.store
        (lockName nIncr) = none
    ∧ (after_singular (S := Unit) (A := Unit) nIncr () (5 : Nat) () wHeld).2.redis.store
        slotT = wHeld.redis.store slotT := by
  have h := after_singular_unconditional_delete nIncr () (5 : Nat) () wHeld
  exact ⟨h.1, (h.2.2.1 slotT (by decide)).1⟩

/-- C8 (amended): construction with neither a local actor nor an identifier
fails with the invalid-configuration error; with only one of them the
corresponding mode is chosen; but with both, no error is raised — the local
actor branch is tested first and wins, the identifier being ignored. -/
theorem proxyInit_argument_validation {Actor : Type} (act : Actor) (u : String) :
    proxyInit Actor none none = Except.error ("No actor or UUID provided")
  ∧ proxyInit Actor (some act) (none : Option String) = Except.ok (InitMode.cloneLocal act)
  ∧ proxyInit Actor none (some u) = Except.ok (InitMode.attachRemote u)
  ∧ proxyInit Actor (some act) (some u) = Except.ok (InitMode.cloneLocal act) :=
  ⟨rfl, rfl, rfl, rfl⟩

/-- C8 counterexample: constructing with both a local actor and an
identifier does not fail — it succeeds in the clone-local mode, refuting
the claim that providing both raises an invalid-configuration error. -/
theorem proxyInit_both_accepted :
    proxyInit Unit (some ()) (some uuidA)
      = Except.ok (InitMode.cloneLocal ()) := rfl

/-- C8 instance: the validation facts evaluated at concrete arguments. -/
theorem proxyInit_argument_validation_instance :
    proxyInit Unit none none = Except.error ("No actor or UUID provided")
    ∧ proxyInit Unit none (some uuidA)
        = Except.ok (InitMode.attachRemote uuidA) := by
  have h := proxyInit_argument_validation () uuidA
  exact ⟨h.1, h.2.2.1⟩

/-- C4 (amended): a response for a pending reply slot has its result value
pushed unchanged onto that slot's queue and the registry entry removed
(other entries untouched); a response for an unknown or already-resolved
slot delivers nothing and leaves the registry unchanged, but is not
silently dropped — the registry lookup raises a `KeyError`. -/
theorem handler_reply_correlation {R : Type} (reg : String → Option (List R))
    (slot : String) (res : R) :
    (∀ q, reg slot = some q →
        handler reg slot res
          = Except.ok (q ++ [res], fun k => if k = slot then none else reg k))
  ∧ (reg slot = none → handler reg slot res = Except.error (PyErr.keyError slot))
  ∧ (∀ q2 reg2, handler reg slot res = Except.ok (q2, reg2) →
        ∀ res2 : R, handler reg2 slot res2 = Except.error (PyErr.keyError slot)) := by
  refine ⟨?_, ?_, ?_⟩
  · intro q hq
    simp [handler, hq]
  · intro hq
    simp [handler, hq]
  · intro q2 reg2 hok res2
    cases hreg : reg slot with
    | none => simp [handler, hreg] at hok
    | some q =>
      simp [handler, hreg] at hok
      have hreg2 : reg2 slot = none := by
        rw [← hok.2]
        simp
      simp [handler, hreg2]

/-- C4 counterexample: a response whose slot is unknown to the registry
raises `KeyError` instead of being silently dropped. -/
theorem handler_unknown_slot_raises :
    handler (fun _ => (none : Option (List Nat))) slotT 5
      = Except.error (PyErr.keyError slotT) := rfl

/-- C4 instance: correlation evaluated on a concrete registry with one
pending slot. -/
theorem handler_reply_correlation_instance :
    handler regPending slotS (5 : Nat)
        = Except.ok ([5], fun k => if k = slotS then none else regPending k)
    ∧ handler regPending slotT (5 : Nat) = Except.error (PyErr.keyError slotT) := by
  have h := handler_reply_correlation regPending slotS (5 : Nat)
  have h2 := handler_reply_correlation regPending slotT (5 : Nat)
  refine ⟨?_, h2.2.1 (by decide)⟩
  simpa using h.1 [] (by decide)

/-- C5: when publish reports zero subscribers on the actor's shared
channel, the call-dispatch operation raises `No such actor` synchronously,
leaves the whole proxy world — in particular the pending-reply registry —
exactly as it was, and its only effect is the publish itself. -/
theorem proxyCall_no_such_actor_preserves_registry {R A K : Type}
    (selfUuid proxyid newSlot methodName : String) (args : A) (kwargs : K)
    (w : ProxyWorld R)
    (hzero : w.subscribers ("actor:" ++ selfUuid) = 0) :
    (proxyCall selfUuid proxyid newSlot methodName args kwargs w).1
        = Except.error ("No such actor")
  ∧ (proxyCall selfUuid proxyid newSlot methodName args kwargs w).2.1 = w
  ∧ (proxyCall selfUuid proxyid newSlot methodName args kwargs w).2.2
      = [ProxyEvent.publishEv ("actor:" ++ selfUuid)
            { senderProxyId := proxyid, replySlotId := newSlot,
              methodName := methodName, args := args, kwargs := kwargs }] := by
  refine ⟨?_, ?_, ?_⟩ <;> simp [proxyCall, hzero]

/-- C5 instance: the no-such-actor outcome evaluated in a world with no
subscribers. -/
theorem proxyCall_no_such_actor_preserves_registry_instance :
    (proxyCall (R := Nat) (A := Unit) (K := Unit) uuidA pidP slotS mPing () () wSub0).1
        = Except.error ("No such actor")
    ∧ (proxyCall (R := Nat) (A := Unit) (K := Unit) uuidA pidP slotS mPing () () wSub0).2.1
        = wSub0 := by
  have h := proxyCall_no_such_actor_preserves_registry (R := Nat) (A := Unit) (K := Unit)
    uuidA pidP slotS mPing () () wSub0 (by decide)
  exact ⟨h.1, h.2.1⟩

/-- C9 (amended): on a successful dispatch the reply slot is registered
with a new empty handoff queue only after the request envelope has been
published on the actor's shared channel — publication is the first effect
and registration the second, other registry entries being untouched. -/
theorem proxyCall_registers_after_publish {R A K : Type}
    (selfUuid proxyid newSlot methodName : String) (args : A) (kwargs : K)
    (w : ProxyWorld R)
    (hsub : w.subscribers ("actor:" ++ selfUuid) ≠ 0) :
    (proxyCall selfUuid proxyid newSlot methodName args kwargs w).2.2
        = [ProxyEvent.publishEv ("actor:" ++ selfUuid)
              { senderProxyId := proxyid, replySlotId := newSlot,
                methodName := methodName, args := args, kwargs := kwargs },
            ProxyEvent.registerEv newSlot]
  ∧ (proxyCall selfUuid proxyid newSlot methodName args kwargs w).1 = Except.ok []
  ∧ (proxyCall selfUuid proxyid newSlot methodName args kwargs w).2.1.responseQueues
        newSlot = some []
  ∧ (∀ k, k ≠ newSlot →
        (proxyCall selfUuid proxyid newSlot methodName args kwargs w).2.1.responseQueues k
          = w.responseQueues k) := by
  refine ⟨?_, ?_, ?_, ?_⟩
  · simp [proxyCall, hsub]
  · simp [proxyCall, hsub]
  · simp [proxyCall, hsub]
  · intro k hk
    simp [proxyCall, hsub, hk]

/-- C9 counterexample: at a concrete successful dispatch the effect trace
is publish first, register second, so the reply slot is not registered
before the envelope is published. -/
theorem proxyCall_publish_precedes_register :
    (proxyCall (R := Nat) (A := Unit) (K := Unit) uuidA pidP slotS mPing () () wSub1).2.2
        = [ProxyEvent.publishEv ("actor:" ++ uuidA)
              { senderProxyId := pidP, replySlotId := slotS,
                methodName := mPing, args := (), kwargs := () },
            ProxyEvent.registerEv slotS]
    ∧ ¬ (List.indexOf (ProxyEvent.registerEv (A := Unit) (K := Unit) slotS)
            (proxyCall (R := Nat) (A := Unit) (K := Unit) uuidA pidP slotS mPing () () wSub1).2.2
          < List.indexOf
            (ProxyEvent.publishEv ("actor:" ++ uuidA)
              { senderProxyId := pidP, replySlotId := slotS,
                methodName := mPing, args := (), kwargs := () })
            (proxyCall (R := Nat) (A := Unit) (K := Unit) uuidA pidP slotS mPing () () wSub1).2.2) := by
  constructor
  · decide
  · decide

/-- C9 instance: the successful-dispatch facts evaluated concretely. -/
theorem proxyCall_registers_after_publish_instance :
    (proxyCall (R := Nat) (A := Unit) (K := Unit) uuidA pidP slotT mPing () () wSub1).1
        = Except.ok []
    ∧ (proxyCall (R := Nat) (A := Unit) (K := Unit) uuidA pidP slotT mPing () () wSub1).2.1.responseQueues
        slotT = some [] := by
  have h := proxyCall_registers_after_publish (R := Nat) (A := Unit) (K := Unit)
    uuidA pidP slotT mPing () () wSub1 (by decide)
  exact ⟨h.2.1, h.2.2.1⟩

/-- C1: the lock-acquisition before-hook.  With the lock key
(`'global.lock' + ':' + methodName`) absent, the set-if-absent succeeds:
the key is written with expiry `now + 2 + 1`, given a TTL of 2 seconds, and
the hook returns `None` so the pipeline proceeds.  With the key present and
unexpired (`now < stored`), the hook vetoes with `False` and changes
nothing.  With the key present but expired, the hook steals the lock via
get-and-set (sequentially the previous value it returns is the expired one,
so the steal goes through), writes the new expiry, sets the TTL and returns
`None`. -/
theorem before_singular_lock_protocol {S A V : Type} (n : String) (pyFalse : V)
    (s : S) (a : A) (w : World) :
    (w.redis.store (lockName n) = none →
        (before_singular pyFalse n s a w).1 = none
      ∧ (before_singular pyFalse n s a w).2.now = w.now
      ∧ (before_singular pyFalse n s a w).2.redis.store (lockName n)
          = some (w.now + 2 + 1)
      ∧ (before_singular pyFalse n s a w).2.redis.ttl (lockName n) = some 2
      ∧ (∀ k, k ≠ lockName n →
            (before_singular pyFalse n s a w).2.redis.store k = w.redis.store k
          ∧ (before_singular pyFalse n s a w).2.redis.ttl k = w.redis.ttl k))
  ∧ (∀ cur, w.redis.store (lockName n) = some cur → w.now < cur →
        before_singular pyFalse n s a w = (some pyFalse, w))
  ∧ (∀ cur, w.redis.store (lockName n) = some cur → ¬ w.now < cur →
        (before_singular pyFalse n s a w).1 = none
      ∧ (before_singular pyFalse n s a w).2.now = w.now
      ∧ (before_singular pyFalse n s a w).2.redis.store (lockName n)
          = some (w.now + 2 + 1)
      ∧ (before_singular pyFalse n s a w).2.redis.ttl (lockName n) = some 2
      ∧ (∀ k, k ≠ lockName n →
            (before_singular pyFalse n s a w).2.redis.store k = w.redis.store k
          ∧ (before_singular pyFalse n s a w).2.redis.ttl k = w.redis.ttl k)) := by
  refine ⟨?_, ?_, ?_⟩
  · intro h
    refine ⟨by simp [before_singular, redisSetnx, redisExpire, expiry, h],
      by simp [before_singular, redisSetnx, redisExpire, expiry, h],
      by simp [before_singular, redisSetnx, redisExpire, expiry, h],
      by simp [before_singular, redisSetnx, redisExpire, expiry, h], ?_⟩
    intro k hk
    constructor <;> simp [before_singular, redisSetnx, redisExpire, expiry, h, hk]
  · intro cur h hlt
    simp [before_singular, redisSetnx, redisGet, h, hlt]
  · intro cur h hge
    refine ⟨by simp [before_singular, redisSetnx, redisGet, redisGetset, redisExpire, expiry, h, hge],
      by simp [before_singular, redisSetnx, redisGet, redisGetset, redisExpire, expiry, h, hge],
      by simp [before_singular, redisSetnx, redisGet, redisGetset, redisExpire, expiry, h, hge],
      by simp [before_singular, redisSetnx, redisGet, redisGetset, redisExpire, expiry, h, hge], ?_⟩
    intro k hk
    constructor <;>
      simp [before_singular, redisSetnx, redisGet, redisGetset, redisExpire, expiry, h, hge, hk]

/-- C1 instance: the three acquisition outcomes evaluated at time 10 on an
empty store, a store holding unexpired value 20, and a store holding
expired value 4. -/
theorem before_singular_lock_protocol_instance :
    ((before_singular (S := Unit) (A := Unit) false nIncr () () wFresh).1 = none
      ∧ (before_singular (S := Unit) (A := Unit) false nIncr () () wFresh).2.redis.store
          (lockName nIncr) = some 13
      ∧ (before_singular (S := Unit) (A := Unit) false nIncr () () wFresh).2.redis.ttl
          (lockName nIncr) = some 2)
    ∧ before_singular (S := Unit) (A := Unit) false nIncr () () wHeld
        = (some false, wHeld)
    ∧ ((before_singular (S := Unit) (A := Unit) false nIncr () () wStale).1 = none
      ∧ (before_singular (S := Unit) (A := Unit) false nIncr () () wStale).2.redis.store
          (lockName nIncr) = some 13) := by
  have h1 := (before_singular_lock_protocol nIncr false () () wFresh).1 rfl
  have h2 := (before_singular_lock_protocol nIncr false () () wHeld).2.1 20
    (by simp [wHeld]) (by norm_num [wHeld])
  have h3 := (before_singular_lock_protocol nIncr false () () wStale).2.2 4
    (by simp [wStale]) (by norm_num [wStale])
  refine ⟨⟨h1.1, ?_, h1.2.2.2.1⟩, h2, h3.1, ?_⟩
  · rw [h1.2.2.1]
    norm_num [wFresh]
  · rw [h3.2.2.1]
    norm_num [wStale]

/-- C10: the singular release after-hook always returns `None` (its body
only deletes the key), so for a method guarded by `singular` alone, a call
whose acquisition hook passes returns the wrapped function's result
unchanged — the lock bookkeeping never replaces the guarded call's
result. -/
theorem singular_preserves_result {S A V : Type} (pyFalse : V) (n : String)
    (f : S → A → World → V × World) (s : S) (a : A) (w : World)
    (hacq : (before_singular pyFalse n s a w).1 = none) :
    (∀ (s2 : S) (r2 : V) (a2 : A) (w2 : World),
        (after_singular n s2 r2 a2 w2).1 = none)
  ∧ ((singular pyFalse n (Decoratable.plain f)).call s a w).1
      = (f s a (before_singular pyFalse n s a w).2).1 := by
  refine ⟨fun s2 r2 a2 w2 => rfl, ?_⟩
  rcases hb : before_singular pyFalse n s a w with ⟨b, w1⟩
  rw [hb] at hacq
  simp only at hacq
  subst hacq
  rcases hf : f s a w1 with ⟨r, w2⟩
  simp [singular, DecoratedMethod.call, runBeforeHooks, runAfterHooks, after_singular,
    hb, hf]

/-- C10 instance: a guarded call on an empty store returns the base result
42 unchanged. -/
theorem singular_preserves_result_instance :
    (after_singular (S := Unit) (A := Unit) nIncr () (0 : Nat) () wFresh).1 = none
    ∧ ((singular (0 : Nat) nIncr (Decoratable.plain fBase)).call () () wFresh).1 = 42 := by
  have h := singular_preserves_result (0 : Nat) nIncr fBase () () wFresh rfl
  exact ⟨h.1 () 0 () wFresh, h.2⟩

/-- Reduction of `call` when the before runner vetoes. -/
theorem DecoratedMethod.call_eq_of_veto {S σ A V : Type}
    (m : DecoratedMethod S σ A V) (s : S) (a : A) (w w1 : σ)
    (evs : List (CallEvent S A V)) (v : V)
    (hrb : runBeforeHooks m.before 0 s a w = (some v, w1, evs)) :
    m.call s a w = (v, w1, evs) := by
  unfold DecoratedMethod.call
  rw [hrb]

/-- Reduction of `call` when the before runner passes: the result is the
after runner's override if any, else the base result, and the trace is the
before events, the base event, then the after events. -/
theorem DecoratedMethod.call_eq_of_runs {S σ A V : Type}
    (m : DecoratedMethod S σ A V) (s : S) (a : A) (w wm w2 w3 : σ)
    (bEvs aEvs : List (CallEvent S A V)) (r : V) (mres : Option V)
    (hrb : runBeforeHooks m.before 0 s a w = (none, wm, bEvs))
    (hf : m.func s a wm = (r, w2))
    (hra : runAfterHooks m.after 0 s r a w2 = (mres, w3, aEvs)) :
    m.call s a w = (mres.getD r, w3, bEvs ++ CallEvent.baseEv s a :: aEvs) := by
  unfold DecoratedMethod.call
  rw [hrb]
  show (match m.func s a wm with
    | (r, w2) =>
      match runAfterHooks m.after 0 s r a w2 with
      | (some v, w3, evs2) => (v, w3, bEvs ++ CallEvent.baseEv s a :: evs2)
      | (none, w3, evs2) => (r, w3, bEvs ++ CallEvent.baseEv s a :: evs2)) = _
  rw [hf]
  show (match runAfterHooks m.after 0 s r a w2 with
    | (some v, w3, evs2) => (v, w3, bEvs ++ CallEvent.baseEv s a :: evs2)
    | (none, w3, evs2) => (r, w3, bEvs ++ CallEvent.baseEv s a :: evs2)) = _
  rw [hra]
  cases mres <;> rfl

/-- C2: the before-hook phase of a decorated-method invocation.  First, if
hooks `0..k-1` each return `None` along the run and hook `k` returns a
value, that value is the overall result and the trace is exactly hooks
`0..k` invoked in registration order with the stored receiver and the
original arguments — no later before hook, no base call, no after hook.
Second, if every before hook returns `None` along the run, the trace starts
with all before hooks in registration order, immediately followed by
exactly one base invocation with the original receiver and arguments, and
no further before events occur. -/
theorem decoratedMethod_before_pipeline {S σ A V : Type}
    (m : DecoratedMethod S σ A V) (s : S) (a : A) (w : σ) :
    (∀ (k : Nat) (hk : k < m.before.length) (v : V) (wm w2 : σ),
        noneChain ((m.before.take k).map (fun h => h s a)) w wm →
        m.before.get ⟨k, hk⟩ s a wm = (some v, w2) →
        m.call s a w
          = (v, w2, (List.range (k + 1)).map (fun j => CallEvent.beforeEv j s a)))
  ∧ (∀ wm, noneChain (m.before.map (fun h => h s a)) w wm →
        (m.call s a w).2.2.take m.before.length
            = (List.range m.before.length).map (fun j => CallEvent.beforeEv j s a)
      ∧ (m.call s a w).2.2[m.before.length]? = some (CallEvent.baseEv s a)
      ∧ List.countP (fun e => CallEvent.isBase e) (m.call s a w).2.2 = 1
      ∧ List.countP (fun e => CallEvent.isBefore e) (m.call s a w).2.2
          = m.before.length) := by
  constructor
  · intro k hk v wm w2 hchain hhit
    have h := runBeforeHooks_veto m.before 0 s a k hk v w wm w2 hchain hhit
    simp only [Nat.zero_add] at h
    exact m.call_eq_of_veto s a w w2 _ v h
  · intro wm hchain
    have hrb := runBeforeHooks_none m.before 0 s a w wm hchain
    simp only [Nat.zero_add] at hrb
    rcases hf : m.func s a wm with ⟨r, w2⟩
    rcases hra : runAfterHooks m.after 0 s r a w2 with ⟨mres, w3, aEvs⟩
    have hshape := runAfterHooks_events_shape m.after 0 s r a w2
    rw [hra] at hshape
    have hcall := m.call_eq_of_runs s a w wm w2 w3 _ aEvs r mres hrb hf hra
    have htr : (m.call s a w).2.2
        = (List.range m.before.length).map (fun j => CallEvent.beforeEv j s a)
          ++ CallEvent.baseEv s a :: aEvs := by rw [hcall]
    have hlen : ((List.range m.before.length).map
        (fun j => CallEvent.beforeEv (S := S) (A := A) (V := V) j s a)).length
          = m.before.length := by simp
    have hb0 : List.countP (fun e => CallEvent.isBase e)
        ((List.range m.before.length).map
          (fun j => CallEvent.beforeEv (S := S) (A := A) (V := V) j s a)) = 0 := by
      apply List.countP_eq_zero.mpr
      intro e he
      rcases List.mem_map.mp he with ⟨j, hj, rfl⟩
      simp [CallEvent.isBase]
    have ha0 : List.countP (fun e => CallEvent.isBase e) aEvs = 0 := by
      apply List.countP_eq_zero.mpr
      intro e he
      simp [(hshape e he).1]
    have hb1 : List.countP (fun e => CallEvent.isBefore e)
        ((List.range m.before.length).map
          (fun j => CallEvent.beforeEv (S := S) (A := A) (V := V) j s a))
        = ((List.range m.before.length).map
          (fun j => CallEvent.beforeEv (S := S) (A := A) (V := V) j s a)).length := by
      apply List.countP_eq_length.mpr
      intro e he
      rcases List.mem_map.mp he with ⟨j, hj, rfl⟩
      simp [CallEvent.isBefore]
    have ha1 : List.countP (fun e => CallEvent.isBefore e) aEvs = 0 := by
      apply List.countP_eq_zero.mpr
      intro e he
      simp [(hshape e he).2]
    refine ⟨?_, ?_, ?_, ?_⟩
    · rw [htr, List.take_left' hlen]
    · rw [htr, List.getElem?_append_right (le_of_eq hlen), hlen]
      simp
    · rw [htr, List.countP_append, List.countP_cons, hb0, ha0]
      simp [CallEvent.isBase]
    · rw [htr, List.countP_append, List.countP_cons, hb1, ha1, hlen]
      simp [CallEvent.isBefore]

/-- C2 instance: a veto by the second before hook, and the pass facts on a
method whose single before hook returns `None`. -/
theorem decoratedMethod_before_pipeline_instance :
    mVeto.call () 5 0
        = (7, 11, [CallEvent.beforeEv 0 () 5, CallEvent.beforeEv 1 () 5])
    ∧ (mPass.call () 3 0).2.2.take 1 = [CallEvent.beforeEv 0 () 3]
    ∧ (mPass.call () 3 0).2.2[1]? = some (CallEvent.baseEv () 3)
    ∧ List.countP (fun e => CallEvent.isBase e) (mPass.call () 3 0).2.2 = 1 := by
  have h1 := (decoratedMethod_before_pipeline mVeto () 5 0).1 1 (by decide) 7 1 11
    ⟨1, rfl, rfl⟩ rfl
  have h2 := (decoratedMethod_before_pipeline mPass () 3 0).2 1 ⟨1, rfl, rfl⟩
  exact ⟨h1, h2.1, h2.2.1, h2.2.2.1⟩

/-- C3: the after-hook phase, for a run in which no before hook vetoes.
First, if after hooks `0..k-1` each return `None` along the run and after
hook `k` returns a value, that value is the overall result at once and the
trace shows all before hooks, one base invocation, then after hooks `0..k`
invoked in registration order with the receiver, the base result and the
original arguments.  Second, if every after hook returns `None` along the
run, the base result is returned unchanged and every after hook ran, in
order. -/
theorem decoratedMethod_after_pipeline {S σ A V : Type}
    (m : DecoratedMethod S σ A V) (s : S) (a : A) (w wm : σ)
    (hpass : noneChain (m.before.map (fun h => h s a)) w wm) :
    (∀ (k : Nat) (hk : k < m.after.length) (v : V) (wa w3 : σ),
        noneChain ((m.after.take k).map (fun g => g s (m.func s a wm).1 a))
            (m.func s a wm).2 wa →
        m.after.get ⟨k, hk⟩ s (m.func s a wm).1 a wa = (some v, w3) →
        m.call s a w
          = (v, w3,
              (List.range m.before.length).map (fun j => CallEvent.beforeEv j s a)
                ++ CallEvent.baseEv s a
                  :: (List.range (k + 1)).map
                      (fun j => CallEvent.afterEv j s (m.func s a wm).1 a)))
  ∧ (∀ wa, noneChain (m.after.map (fun g => g s (m.func s a wm).1 a))
        (m.func s a wm).2 wa →
        m.call s a w
          = ((m.func s a wm).1, wa,
              (List.range m.before.length).map (fun j => CallEvent.beforeEv j s a)
                ++ CallEvent.baseEv s a
                  :: (List.range m.after.length).map
                      (fun j => CallEvent.afterEv j s (m.func s a wm).1 a))) := by
  have hrb := runBeforeHooks_none m.before 0 s a w wm hpass
  simp only [Nat.zero_add] at hrb
  constructor
  · intro k hk v wa w3 hchain hhit
    have hra := runAfterHooks_veto m.after 0 s (m.func s a wm).1 a k hk v
      (m.func s a wm).2 wa w3 hchain hhit
    simp only [Nat.zero_add] at hra
    have hcall := m.call_eq_of_runs s a w wm (m.func s a wm).2 w3 _ _
      (m.func s a wm).1 (some v) hrb rfl hra
    exact hcall
  · intro wa hchain
    have hra := runAfterHooks_none m.after 0 s (m.func s a wm).1 a
      (m.func s a wm).2 wa hchain
    simp only [Nat.zero_add] at hra
    have hcall := m.call_eq_of_runs s a w wm (m.func s a wm).2 wa _ _
      (m.func s a wm).1 none hrb rfl hra
    exact hcall

/-- C3 instance: an override by the second after hook, and a full pass
returning the base result unchanged. -/
theorem decoratedMethod_after_pipeline_instance :
    mAfter.call () 3 0
        = (9, 28,
            [CallEvent.beforeEv 0 () 3, CallEvent.baseEv () 3,
              CallEvent.afterEv 0 () 6 3, CallEvent.afterEv 1 () 6 3])
    ∧ mPass.call () 3 0
        = (6, 8,
            [CallEvent.beforeEv 0 () 3, CallEvent.baseEv () 3,
              CallEvent.afterEv 0 () 6 3]) := by
  have h1 := (decoratedMethod_after_pipeline mAfter () 3 0 1 ⟨1, rfl, rfl⟩).1 1
    (by decide) 9 8 28 ⟨8, rfl, rfl⟩ rfl
  have h2 := (decoratedMethod_after_pipeline mPass () 3 0 1 ⟨1, rfl, rfl⟩).2 8
    ⟨8, rfl, rfl⟩
  exact ⟨h1, h2⟩
